import Mathlib

/-!
Verification development for the ACTS demo repository: a shallow embedding of
the CI tooling found under `CI/` and, for the pipeline core (Sequencer,
EventStore/WhiteBoard, RandomNumbers) whose implementation is not part of the
Python sources, a model built from the specification document.
-/

namespace CheckPrLabels

/-! ### Embedding of `CI/check_pr_labels.py` -/

/-- Python exception kinds relevant to `check_pr_labels.main`. -/
inductive PyError
  | nameError
  | envException
  deriving DecidableEq, Repr

/-- Embedding of `str(os.getenv('GITHUB_TOKEN'))` (line 44): `os.getenv`
returns `None` when the variable is unset, and `str(None)` is the literal
string `"None"`; when the variable is set, `str` is the identity on it. -/
def strOfGetenv : Option String → String
  | none => "None"
  | some s => s

/-- Embedding of the token guard in `main` (lines 44-46): bind
`github_token`, raise when it compares equal to the empty string. -/
def tokenCheck (env : Option String) : Except PyError String :=
  let github_token := strOfGetenv env
  if github_token = "" then
    .error .envException
  else
    .ok github_token

/-- The names bound in the local scope of `main` (assignment targets and
loop variables, transcribed from lines 35-97 of `CI/check_pr_labels.py`). -/
def mainLocalNames : List String :=
  ["args", "github_repository_name", "pull_id", "list_labels",
   "whatchlist_files", "github_token", "github", "repository", "pull",
   "labels", "label", "files", "el", "pattern", "toadd_labels",
   "final_labels"]

/-- The names bound at module level in `CI/check_pr_labels.py`
(imports and top-level `def`s, lines 1-34). -/
def moduleGlobalNames : List String :=
  ["Github", "argparse", "re", "os", "parse_arguments", "whatch_list", "main"]

/-- Python builtins referenced by the module; name resolution falls back to
these after locals and globals. -/
def builtinNames : List String :=
  ["print", "str", "set", "dict", "type", "int", "Exception"]

/-- Name resolution as Python performs it inside `main`: local scope, then
module globals, then builtins. -/
def resolvesInMain (name : String) : Bool :=
  name ∈ mainLocalNames || name ∈ moduleGlobalNames || name ∈ builtinNames

/-- Embedding of the final statements of `main` (lines 102-103): evaluate the
name `mislabeled`; an unresolvable name raises `NameError`, otherwise the
branch compares the truth value `v` bound to it. Returns `()` on normal
completion of `main`. -/
def finalLabelComparison (valueOf : String → Bool) : Except PyError Unit :=
  if resolvesInMain "mislabeled" then
    if valueOf "mislabeled" then .error .envException else .ok ()
  else
    .error .nameError

end CheckPrLabels

namespace PhysmonSummary

/-! ### Embedding of `CI/physmon/summary.py` -/

/-- Python exceptions that the `try` block of the per-file loop can raise. -/
inductive PyExc
  | indexError
  | typeError
  deriving DecidableEq, Repr

/-- One parsed summary entry (the dict stored in `summary[h]`,
lines 28-33). -/
structure Entry where
  title : String
  checks : List (String × String)
  parsed_checks : List Bool
  total : Bool
  deriving DecidableEq, Repr

/-- Embedding of `functools.reduce(lambda a, b: a and b, parsed_checks)`
(line 32): `reduce` over an empty sequence with no initializer raises
`TypeError`; otherwise it left-folds Python `and`, which on booleans is
conjunction. -/
def reduceAnd : List Bool → Except PyExc Bool
  | [] => .error .typeError
  | b :: bs => .ok (bs.foldl (fun a c => a && c) b)

/-- Embedding of the body of the `try` block for one html file
(lines 23-33), abstracted over the regex results: `titles` is
`re_title.findall(content)` and `checks` is `re_check.findall(content)`
(each check a pair of the two captured groups). `titles[0]` raises
`IndexError` on an empty list. -/
def processFile (titles : List String) (checks : List (String × String)) :
    Except PyExc Entry :=
  match titles with
  | [] => .error PyExc.indexError
  | t :: _ =>
    let parsed_checks := checks.map (fun c => c.2 == "✅")
    match reduceAnd parsed_checks with
    | .error e => .error e
    | .ok total =>
      .ok { title := t, checks := checks, parsed_checks := parsed_checks,
            total := total }

/-- The `except` clause (lines 34-35) silently drops the file: the summary
dict gets an entry only when the `try` body completes. -/
def summaryEntry (titles : List String) (checks : List (String × String)) :
    Option Entry :=
  (processFile titles checks).toOption

/-- The mark written for an entry (line 42): `'✅' if s['total'] else '🔴'`. -/
def markOf (e : Entry) : String :=
  if e.total then "✅" else "🔴"

end PhysmonSummary

namespace Core

/-!
### Model of the pipeline core

The Sequencer, EventStore (whiteboard) and RandomNumbers components are
implemented outside the Python sources of this repository; only their callers
(`acts.examples.Sequencer`, the readers/writers used by the scripts and
tests) appear here. The definitions below are therefore built from the
specification document, as marked on each one.
-/

/-- 2^64, the word size of the random engine state. -/
def w64 : Nat := 18446744073709551616

/-- Modelled from the spec: a 64-bit avalanche mixer used to "hash (seed,
eventIndex, purpose) into a per-purpose engine seed" (§4.2). All arithmetic
is mod 2^64. -/
def mix64 (z : Nat) : Nat :=
  let z1 := (z + 11400714819323198485) % w64
  let z2 := ((z1 ^^^ (z1 >>> 30)) * 13787848793156543929) % w64
  let z3 := ((z2 ^^^ (z2 >>> 27)) * 10723151780598845931) % w64
  (z3 ^^^ (z3 >>> 31)) % w64

/-- Modelled from the spec: the per-purpose engine seed derived from the
global seed, the event index and the purpose tag (§4.2), and from nothing
else. -/
def engineSeed (seed eventIndex purpose : Nat) : Nat :=
  mix64 ((mix64 ((mix64 (seed % w64) + eventIndex) % w64) + purpose) % w64)

/-- Modelled from the spec: one step of the random engine, a 64-bit linear
congruential generator over the engine state. -/
def engineNext (s : Nat) : Nat :=
  (6364136223846793005 * s + 1442695040888963407) % w64

/-- Draw `n` values starting from engine state `s`, returning the successive
states as the drawn values. -/
def drawsFrom : Nat → Nat → List Nat
  | _, 0 => []
  | s, n + 1 =>
    let s1 := engineNext s
    s1 :: drawsFrom s1 n

/-- Modelled from the spec: `streamFor(eventIndex)` under global `seed` and a
`purpose` tag; `streamFor seed i purpose n` is the list of the first `n`
draws of the stream. Its arguments are exactly the inputs the spec allows
(§4.2): global seed, event index, purpose tag. -/
def streamFor (seed eventIndex purpose : Nat) (n : Nat) : List Nat :=
  drawsFrom (engineSeed seed eventIndex purpose) n

/-- Modelled from the spec: the completion order of a run in which events
`0..N-1` are distributed over `W` workers, worker `w` owning the events with
index ≡ `w` (mod `W`) and processing them in increasing order (§4.5, §5).
For `W = 1` this is `0,1,...,N-1`; for `W > 1` some other permutation of the
event indices. -/
def scheduleOrder (W N : Nat) : List Nat :=
  (List.range W).flatMap (fun w => (List.range N).filter (fun i => i % W = w))

/-- Modelled from the spec: a scheduler run collecting, in completion order,
each event's index paired with the first `n` draws of its random stream. The
stream of event `i` is `streamFor seed i purpose`, owned by whichever worker
processes `i`. -/
def runResults (seed purpose n : Nat) (order : List Nat) :
    List (Nat × List Nat) :=
  order.map (fun i => (i, streamFor seed i purpose n))

/-- The draws recorded for event `i` in a run's result list (lookup by event
index). -/
def outputFor (results : List (Nat × List Nat)) (i : Nat) :
    Option (List Nat) :=
  results.lookup i

/-- The value types exchanged through the event store in this model. -/
inductive ValTy
  | tInt
  | tStr
  | tBool
  deriving DecidableEq, Repr

/-- The values exchanged through the event store in this model. -/
inductive Val
  | vInt (n : Int)
  | vStr (s : String)
  | vBool (b : Bool)
  deriving DecidableEq, Repr

/-- The runtime type of a stored value. -/
def typeOf : Val → ValTy
  | .vInt _ => .tInt
  | .vStr _ => .tStr
  | .vBool _ => .tBool

/-- Modelled from the spec: the EventStore error kinds (§7). -/
inductive StoreError
  | DuplicateKey
  | MissingKey
  | TypeMismatch
  deriving DecidableEq, Repr

/-- Modelled from the spec: the per-event name-keyed store ("whiteboard",
§4.1), a mapping from key to stored value. -/
def EventStore := List (String × Val)

/-- The empty store an event starts with. -/
def EventStore.empty : EventStore := []

/-- Modelled from the spec: `put(key, value)` fails with DuplicateKey if the
key is already present for this event, else records the value (§4.1). -/
def EventStore.put (st : EventStore) (k : String) (v : Val) :
    Except StoreError EventStore :=
  match List.lookup k st with
  | some _ => .error .DuplicateKey
  | none => .ok ((k, v) :: st)

/-- Modelled from the spec: `get(key)` at a declared type fails with
MissingKey if absent and TypeMismatch if the stored type differs, else
returns the stored value (§4.1). -/
def EventStore.get (st : EventStore) (k : String) (t : ValTy) :
    Except StoreError Val :=
  match List.lookup k st with
  | none => .error .MissingKey
  | some v => if typeOf v = t then .ok v else .error .TypeMismatch

/-- Modelled from the spec: `exists(key)` never fails (§4.1). -/
def EventStore.existsKey (st : EventStore) (k : String) : Bool :=
  (List.lookup k st).isSome

/-- A read as a state transition: the result of `get` together with the
store the event continues with. Reads never mutate (§4.1), which here is the
statement that the returned store is the input store. -/
def EventStore.getS (st : EventStore) (k : String) (t : ValTy) :
    Except StoreError Val × EventStore :=
  (st.get k t, st)

/-- Modelled from the spec: the severity carried by a StageError (§7). -/
inductive Severity
  | Recoverable
  | Fatal
  deriving DecidableEq, Repr

/-- Modelled from the spec: a stage (or context decorator) as its observable
per-event behaviour: `out i = none` means `process(i, store)` succeeds,
`out i = some sev` means it raises a StageError of that severity. -/
structure Stage where
  name : String
  out : Nat → Option Severity

/-- Modelled from the spec: the ordering class of a per-event execution step
(§4.5): Decorating, then Reading, then Processing, then Writing. -/
inductive Phase
  | Decorate
  | Read
  | Process
  | Write
  deriving DecidableEq, Repr

/-- Modelled from the spec: a registered reader together with the event
count it reports; `count = none` for a streaming reader, which reports
none (§4.4). -/
structure Reader where
  stage : Stage
  count : Option Nat

/-- Modelled from the spec: the registered pipeline — ordered lists of
context decorators, readers, algorithms and writers, append-only before
`run()` (§6). -/
structure Pipeline where
  decorators : List Stage
  readers : List Reader
  algorithms : List Stage
  writers : List Stage

/-- Modelled from the spec: pre-run configuration failure (§7). -/
inductive ConfigError
  | ConfigurationError
  deriving DecidableEq, Repr

/-- The event counts reported by non-streaming readers, in registration
order. -/
def nonStreamingCounts (p : Pipeline) : List Nat :=
  p.readers.filterMap (fun r => r.count)

/-- Modelled from the spec: the event-count sources available to `run()` —
the explicit count, if given, followed by every non-streaming reader
count (§4.5). -/
def availableCounts (p : Pipeline) (explicit : Option Nat) : List Nat :=
  explicit.toList ++ nonStreamingCounts p

/-- Modelled from the spec: "Total event count = min(explicit count if
given, minimum count reported by any non-streaming reader). If neither is
available, `run()` fails fast with ConfigurationError" (§4.5). -/
def determineEventCount (p : Pipeline) (explicit : Option Nat) :
    Except ConfigError Nat :=
  match availableCounts p explicit with
  | [] => .error .ConfigurationError
  | c :: cs => .ok (cs.foldl min c)

/-- Modelled from the spec: the per-event execution list — decorators, then
readers, then algorithms, then writers, each class in registration
order (§2, §4.3, §4.5). -/
def stageList (p : Pipeline) : List (Phase × Stage) :=
  p.decorators.map (fun st => (Phase.Decorate, st))
    ++ p.readers.map (fun r => (Phase.Read, r.stage))
    ++ p.algorithms.map (fun st => (Phase.Process, st))
    ++ p.writers.map (fun st => (Phase.Write, st))

/-- Run the per-event execution list on event `i`: each step that executes
is recorded in the trace as (event index, phase, stage name); the first
failure stops the event and yields its severity (§7). -/
def runStages : List (Phase × Stage) → Nat →
    List (Nat × Phase × String) × Option Severity
  | [], _ => ([], none)
  | (ph, st) :: rest, i =>
    match st.out i with
    | some sev => ([(i, ph, st.name)], some sev)
    | none =>
      ((i, ph, st.name) :: (runStages rest i).1, (runStages rest i).2)

/-- The executed steps of event `i` (its slice of the run trace). -/
def eventTrace (p : Pipeline) (i : Nat) : List (Nat × Phase × String) :=
  (runStages (stageList p) i).1

/-- The outcome of event `i`: `none` if every step succeeded, otherwise the
severity of the first failure. -/
def eventOutcome (p : Pipeline) (i : Nat) : Option Severity :=
  (runStages (stageList p) i).2

/-- Modelled from the spec: the terminal per-event states (§4.5). -/
inductive EventState
  | Done
  | Failed
  deriving DecidableEq, Repr

/-- Modelled from the spec: the counts `run()` returns (§3, §7). -/
structure RunStats where
  attempted : Nat
  succeeded : Nat
  failed : Nat
  deriving DecidableEq, Repr

/-- The scheduler's mutable state over a run: the accumulated trace, the
terminal state of each attempted event, the statistics, and whether a Fatal
error has requested run-level abort. -/
structure RunState where
  trace : List (Nat × Phase × String)
  states : List (Nat × EventState)
  stats : RunStats
  aborted : Bool
  deriving Repr

/-- The state a run starts from: nothing dispatched. -/
def initState : RunState :=
  ⟨[], [], ⟨0, 0, 0⟩, false⟩

/-- Modelled from the spec: dispatch of one event (W = 1 semantics, §4.5):
skipped entirely once abort was requested; otherwise the event executes its
stage list, ends Done on success and Failed on a StageError, a Fatal error
additionally halting all further dispatch (§7). -/
def stepEvent (p : Pipeline) (s : RunState) (i : Nat) : RunState :=
  if s.aborted then s
  else
    { trace := s.trace ++ eventTrace p i
      states := s.states ++
        [(i, if eventOutcome p i = none then EventState.Done
             else EventState.Failed)]
      stats := ⟨s.stats.attempted + 1,
                s.stats.succeeded + (if eventOutcome p i = none then 1 else 0),
                s.stats.failed + (if eventOutcome p i = none then 0 else 1)⟩
      aborted := eventOutcome p i = some Severity.Fatal }

/-- Modelled from the spec: the event loop with worker count W = 1 — events
`0..n-1` strictly in increasing index order on one thread (§4.5). -/
def runEvents (p : Pipeline) (n : Nat) : RunState :=
  (List.range n).foldl (stepEvent p) initState

/-- The outcome of `run()`: a ConfigurationError, if any, together with the
final scheduler state (on a ConfigurationError nothing was dispatched,
§4.5, §7). -/
structure RunResult where
  configError : Option ConfigError
  final : RunState

/-- Modelled from the spec: `run()` under W = 1 — determine the total event
count, failing fast before any dispatch, then drive the events (§4.5). -/
def run (p : Pipeline) (explicit : Option Nat) : RunResult :=
  match determineEventCount p explicit with
  | .error e => ⟨some e, initState⟩
  | .ok n => ⟨none, runEvents p n⟩

/-- The event indices of the writer-phase entries of a trace, in execution
order: the order in which the external sink receives outputs. -/
def writerSink (tr : List (Nat × Phase × String)) : List Nat :=
  (tr.filter (fun e => e.2.1 == Phase.Write)).map (fun e => e.1)

/-- A small concrete pipeline exercising the model: two decorators and one
reader reporting one event, every step succeeding. -/
def sampleDecorated : Pipeline :=
  ⟨[⟨"d1", fun _ => none⟩, ⟨"d2", fun _ => none⟩],
   [⟨⟨"r", fun _ => none⟩, some 1⟩], [], []⟩

end Core

/-! ### Theorems -/

/-- Left-folding boolean conjunction over a list starting from `x` is `x`
conjoined with the conjunction of the list. -/
theorem foldl_and_eq_all (xs : List Bool) (x : Bool) :
    xs.foldl (fun a c => a && c) x = (x && xs.all id) := by
  induction xs generalizing x with
  | nil => simp
  | cons c cs ih =>
    simp only [List.foldl_cons, List.all_cons, ih, id, Bool.and_assoc]

/-- C8: whenever `check_pr_labels.main` reaches the final label comparison,
it raises `NameError`, for every runtime state: the name `mislabeled` tested
there is bound nowhere in the function, its module, or the builtins, so
`main` never returns normally once it reaches that statement. -/
theorem c8_final_comparison_raises_name_error (valueOf : String → Bool) :
    CheckPrLabels.finalLabelComparison valueOf =
      .error CheckPrLabels.PyError.nameError := by
  have h : CheckPrLabels.resolvesInMain "mislabeled" = false := by decide
  simp [CheckPrLabels.finalLabelComparison, h]

/-- C9: the token guard of `check_pr_labels.main` raises the environment
exception iff `GITHUB_TOKEN` is set to the empty string; when the variable
is entirely unset, `str(os.getenv(...))` yields the string `"None"`, the
guard does not fire, and `main` proceeds with the literal token `"None"`. -/
theorem c9_token_guard (env : Option String) :
    (CheckPrLabels.tokenCheck env = .error CheckPrLabels.PyError.envException
        ↔ env = some "") ∧
    CheckPrLabels.strOfGetenv none = "None" ∧
    CheckPrLabels.tokenCheck none = .ok "None" := by
  refine ⟨?_, rfl, rfl⟩
  cases env with
  | none => simp [CheckPrLabels.tokenCheck, CheckPrLabels.strOfGetenv]
  | some s =>
    by_cases hs : s = ""
    · subst hs
      simp [CheckPrLabels.tokenCheck, CheckPrLabels.strOfGetenv]
    · simp [CheckPrLabels.tokenCheck, CheckPrLabels.strOfGetenv, hs]

/-- Witness for C9 at the two concrete environments of the claim. -/
theorem c9_token_guard_witness :
    (CheckPrLabels.tokenCheck (some "") =
        .error CheckPrLabels.PyError.envException
      ↔ (some "" : Option String) = some "") ∧
    CheckPrLabels.strOfGetenv none = "None" ∧
    CheckPrLabels.tokenCheck none = .ok "None" :=
  c9_token_guard (some "")

/-- An entry is marked `✅` exactly when its `total` field is true. -/
theorem markOf_eq_total (e : PhysmonSummary.Entry) :
    (PhysmonSummary.markOf e = "✅") ↔ e.total = true := by
  cases h : e.total with
  | false =>
    simp [PhysmonSummary.markOf, h,
      show ("🔴" : String) ≠ "✅" from by decide]
  | true => simp [PhysmonSummary.markOf, h]

/-- C10: a summarised file is marked `✅` iff every extracted check symbol
is `✅` (`total` is the conjunction of the per-check tests); a file with no
title match or with zero extracted checks raises inside the `try` block and
is silently omitted from the written summary. -/
theorem c10_summary_total (titles : List String)
    (checks : List (String × String)) :
    (∀ e, PhysmonSummary.summaryEntry titles checks = some e →
        (PhysmonSummary.markOf e = "✅" ↔
          checks.all (fun c => c.2 == "✅") = true)) ∧
    (titles = [] → PhysmonSummary.summaryEntry titles checks = none) ∧
    (checks = [] → PhysmonSummary.summaryEntry titles checks = none) := by
  refine ⟨?_, ?_, ?_⟩
  · intro e he
    cases titles with
    | nil =>
      simp [PhysmonSummary.summaryEntry, PhysmonSummary.processFile,
        Except.toOption] at he
    | cons t ts =>
      cases checks with
      | nil =>
        simp [PhysmonSummary.summaryEntry, PhysmonSummary.processFile,
          PhysmonSummary.reduceAnd, Except.toOption] at he
      | cons c cs =>
        have he' : e = PhysmonSummary.Entry.mk t (c :: cs)
            ((c.2 == "✅") :: cs.map (fun x => x.2 == "✅"))
            ((cs.map (fun x => x.2 == "✅")).foldl
              (fun a b => a && b) (c.2 == "✅")) := by
          simpa [PhysmonSummary.summaryEntry, PhysmonSummary.processFile,
            PhysmonSummary.reduceAnd, Except.toOption, eq_comm] using he
        subst he'
        rw [markOf_eq_total]
        simp [foldl_and_eq_all, List.all_map, id]
  · intro ht
    subst ht
    simp [PhysmonSummary.summaryEntry, PhysmonSummary.processFile,
      Except.toOption]
  · intro hc
    subst hc
    cases titles with
    | nil =>
      simp [PhysmonSummary.summaryEntry, PhysmonSummary.processFile,
        Except.toOption]
    | cons t ts =>
      simp [PhysmonSummary.summaryEntry, PhysmonSummary.processFile,
        PhysmonSummary.reduceAnd, Except.toOption]

/-- Witness for C10: a file whose two checks are `✅` and `🔴` is marked
`🔴`, and a file with no extracted checks is omitted. -/
theorem c10_summary_total_witness :
    (∀ e, PhysmonSummary.summaryEntry ["t"] [("a", "✅"), ("b", "🔴")]
        = some e →
      (PhysmonSummary.markOf e = "✅" ↔
        ([("a", "✅"), ("b", "🔴")].all (fun c => c.2 == "✅")) = true)) ∧
    PhysmonSummary.summaryEntry ["t"] ([] : List (String × String)) = none :=
  ⟨(c10_summary_total ["t"] [("a", "✅"), ("b", "🔴")]).1,
   (c10_summary_total ["t"] []).2.2 rfl⟩

/-- C2: the EventStore contract — `put` then `get` at the written type
returns the value; `get` before any `put` of the key fails MissingKey; a
second `put` of the key fails DuplicateKey; `get` at a different declared
type fails TypeMismatch; and a read returns the store unchanged. -/
theorem c2_event_store_contract (st : Core.EventStore) (k : String)
    (v : Core.Val) (t : Core.ValTy)
    (hk : List.lookup k st = none) :
    st.put k v = .ok ((k, v) :: st) ∧
    Core.EventStore.get ((k, v) :: st) k (Core.typeOf v) = .ok v ∧
    st.get k t = .error Core.StoreError.MissingKey ∧
    (∀ w, Core.EventStore.put ((k, v) :: st) k w =
        .error Core.StoreError.DuplicateKey) ∧
    (∀ t', t' ≠ Core.typeOf v →
        Core.EventStore.get ((k, v) :: st) k t' =
          .error Core.StoreError.TypeMismatch) ∧
    (st.getS k t).2 = st := by
  refine ⟨?_, ?_, ?_, ?_, ?_, rfl⟩
  · simp [Core.EventStore.put, hk]
  · simp [Core.EventStore.get, List.lookup]
  · simp [Core.EventStore.get, hk]
  · intro w
    simp [Core.EventStore.put, List.lookup]
  · intro t' ht'
    simp [Core.EventStore.get, List.lookup, Ne.symm ht']

/-- Witness for C2 on a one-key store. -/
theorem c2_event_store_contract_witness :
    Core.EventStore.put Core.EventStore.empty "a" (Core.Val.vInt 3) =
      .ok [("a", Core.Val.vInt 3)] ∧
    Core.EventStore.get [("a", Core.Val.vInt 3)] "a" Core.ValTy.tInt =
      .ok (Core.Val.vInt 3) ∧
    Core.EventStore.get Core.EventStore.empty "a" Core.ValTy.tInt =
      .error Core.StoreError.MissingKey ∧
    Core.EventStore.put [("a", Core.Val.vInt 3)] "a" (Core.Val.vStr "x") =
      .error Core.StoreError.DuplicateKey ∧
    Core.EventStore.get [("a", Core.Val.vInt 3)] "a" Core.ValTy.tStr =
      .error Core.StoreError.TypeMismatch :=
  have h := c2_event_store_contract Core.EventStore.empty "a"
    (Core.Val.vInt 3) Core.ValTy.tInt rfl
  ⟨h.1, h.2.1, h.2.2.1, h.2.2.2.1 (Core.Val.vStr "x"),
   h.2.2.2.2.1 Core.ValTy.tStr (by decide)⟩

/-- Looking an element up in the graph of a function over a list containing
it yields the function's value there. -/
theorem lookup_map_pair (f : Nat → List Nat) (i : Nat) (l : List Nat)
    (h : i ∈ l) :
    List.lookup i (l.map (fun j => (j, f j))) = some (f i) := by
  induction l with
  | nil => cases h
  | cons j js ih =>
    by_cases hij : i = j
    · subst hij
      simp [List.lookup]
    · rcases List.mem_cons.mp h with h1 | h2
      · exact absurd h1 hij
      · have hb : (i == j) = false := beq_eq_false_iff_ne.mpr hij
        simpa [List.lookup, hb] using ih h2

/-- Every event index below `N` appears in the completion order of a run
with a positive number of workers. -/
theorem mem_scheduleOrder (W N i : Nat) (hW : 0 < W) (hi : i < N) :
    i ∈ Core.scheduleOrder W N := by
  unfold Core.scheduleOrder
  rw [List.mem_flatMap]
  refine ⟨i % W, List.mem_range.mpr (Nat.mod_lt i hW), ?_⟩
  rw [List.mem_filter]
  exact ⟨List.mem_range.mpr hi, by simp⟩

/-- C1: the draws recorded for an event are a pure function of the global
seed, the event index and the purpose tag only — two runs with different
worker counts (hence different completion orders) record byte-identical
draws for every event. -/
theorem c1_stream_independent_of_schedule (seed purpose n N i W1 W2 : Nat)
    (h1 : 0 < W1) (h2 : 0 < W2) (hi : i < N) :
    Core.outputFor (Core.runResults seed purpose n (Core.scheduleOrder W1 N)) i
      = Core.outputFor
          (Core.runResults seed purpose n (Core.scheduleOrder W2 N)) i ∧
    Core.outputFor (Core.runResults seed purpose n (Core.scheduleOrder W1 N)) i
      = some (Core.streamFor seed i purpose n) := by
  have e1 : Core.outputFor
      (Core.runResults seed purpose n (Core.scheduleOrder W1 N)) i
        = some (Core.streamFor seed i purpose n) :=
    lookup_map_pair (fun j => Core.streamFor seed j purpose n) i
      (Core.scheduleOrder W1 N) (mem_scheduleOrder W1 N i h1 hi)
  have e2 : Core.outputFor
      (Core.runResults seed purpose n (Core.scheduleOrder W2 N)) i
        = some (Core.streamFor seed i purpose n) :=
    lookup_map_pair (fun j => Core.streamFor seed j purpose n) i
      (Core.scheduleOrder W2 N) (mem_scheduleOrder W2 N i h2 hi)
  exact ⟨e1.trans e2.symm, e1⟩

/-- Witness for C1: event 2 of 3 draws identically under W = 1 and
W = 8. -/
theorem c1_stream_independent_of_schedule_witness :
    Core.outputFor (Core.runResults 42 0 5 (Core.scheduleOrder 1 3)) 2
      = Core.outputFor (Core.runResults 42 0 5 (Core.scheduleOrder 8 3)) 2 ∧
    Core.outputFor (Core.runResults 42 0 5 (Core.scheduleOrder 1 3)) 2
      = some (Core.streamFor 42 2 0 5) :=
  c1_stream_independent_of_schedule 42 0 5 3 2 1 8 (by decide) (by decide)
    (by decide)

/-- The event loop peels one event off the end. -/
theorem runEvents_succ (p : Core.Pipeline) (n : Nat) :
    Core.runEvents p (n + 1) = Core.stepEvent p (Core.runEvents p n) n := by
  simp [Core.runEvents, List.range_succ]

/-- C3: `run()` raises ConfigurationError exactly when neither an explicit
event count nor a non-streaming reader count is available, and in that case
it fails before any dispatch: the final state is the initial one (empty
trace, zero attempted events). -/
theorem c3_configuration_error (p : Core.Pipeline) (explicit : Option Nat) :
    ((Core.run p explicit).configError
        = some Core.ConfigError.ConfigurationError
      ↔ explicit = none ∧ Core.nonStreamingCounts p = []) ∧
    ((Core.run p explicit).configError.isSome →
      (Core.run p explicit).final = Core.initState) := by
  cases explicit with
  | none =>
    cases h : Core.nonStreamingCounts p with
    | nil =>
      simp [Core.run, Core.determineEventCount, Core.availableCounts, h]
    | cons c cs =>
      simp [Core.run, Core.determineEventCount, Core.availableCounts, h]
  | some m =>
    simp [Core.run, Core.determineEventCount, Core.availableCounts]

/-- Witness for C3: an empty pipeline with no explicit count fails with
ConfigurationError. -/
theorem c3_configuration_error_witness :
    (Core.run ⟨[], [], [], []⟩ none).configError
      = some Core.ConfigError.ConfigurationError :=
  (c3_configuration_error ⟨[], [], [], []⟩ none).1.mpr ⟨rfl, rfl⟩

/-- Folding `min` over a list starting from `c0` yields an element of
`c0 :: cs`. -/
theorem foldl_min_mem (cs : List Nat) : ∀ c0, cs.foldl min c0 ∈ c0 :: cs := by
  induction cs with
  | nil =>
    intro c0
    simp
  | cons c cs ih =>
    intro c0
    have h := ih (min c0 c)
    rw [List.foldl_cons]
    rcases List.mem_cons.mp h with h1 | h2
    · rcases Nat.le_total c0 c with hle | hle
      · rw [h1, Nat.min_eq_left hle]
        exact List.mem_cons_self c0 _
      · rw [h1, Nat.min_eq_right hle]
        exact List.mem_cons.mpr (Or.inr (List.mem_cons_self c _))
    · exact List.mem_cons.mpr (Or.inr (List.mem_cons.mpr (Or.inr h2)))

/-- Folding `min` over a list starting from `c0` is a lower bound of
`c0 :: cs`. -/
theorem foldl_min_le (cs : List Nat) :
    ∀ c0 c, c ∈ c0 :: cs → cs.foldl min c0 ≤ c := by
  induction cs with
  | nil =>
    intro c0 c hc
    rcases List.mem_cons.mp hc with h1 | h2
    · simp [h1]
    · cases h2
  | cons d ds ih =>
    intro c0 c hc
    rw [List.foldl_cons]
    rcases List.mem_cons.mp hc with h1 | h2
    · rw [h1]
      exact le_trans (ih (min c0 d) _ (List.mem_cons_self _ _))
        (Nat.min_le_left _ _)
    · rcases List.mem_cons.mp h2 with h3 | h4
      · rw [h3]
        exact le_trans (ih (min c0 d) _ (List.mem_cons_self _ _))
          (Nat.min_le_right _ _)
      · exact ih (min c0 d) c (List.mem_cons.mpr (Or.inr h4))

/-- If no event's outcome is Fatal, the W = 1 loop never aborts and
attempts every event. -/
theorem runEvents_attempted_of_no_fatal (p : Core.Pipeline)
    (h : ∀ j, Core.eventOutcome p j ≠ some Core.Severity.Fatal) (n : Nat) :
    (Core.runEvents p n).aborted = false ∧
    (Core.runEvents p n).stats.attempted = n := by
  induction n with
  | zero => exact ⟨rfl, rfl⟩
  | succ n ih =>
    rw [runEvents_succ]
    rcases ih with ⟨ha, hat⟩
    simp [Core.stepEvent, ha, hat, h n]

/-- State of the W = 1 loop when exactly one event, `k`, fails with a
Recoverable StageError: never aborted, all events attempted, event `k`
Failed and the others Done. -/
theorem runEvents_single_recoverable (p : Core.Pipeline) (k : Nat)
    (h : ∀ i, Core.eventOutcome p i =
        if i = k then some Core.Severity.Recoverable else none) :
    ∀ n, (Core.runEvents p n).aborted = false ∧
      (Core.runEvents p n).stats.attempted = n ∧
      (Core.runEvents p n).states = (List.range n).map
        (fun i => (i, if i = k then Core.EventState.Failed
                      else Core.EventState.Done)) ∧
      (Core.runEvents p n).stats.succeeded = (if k < n then n - 1 else n) ∧
      (Core.runEvents p n).stats.failed = (if k < n then 1 else 0) := by
  intro n
  induction n with
  | zero => exact ⟨rfl, rfl, rfl, rfl, rfl⟩
  | succ n ih =>
    rw [runEvents_succ]
    rcases ih with ⟨ha, hat, hst, hsu, hfa⟩
    by_cases hk : n = k
    · subst hk
      have hout : Core.eventOutcome p n = some Core.Severity.Recoverable := by
        rw [h n, if_pos rfl]
      have hnn : ¬ n < n := Nat.lt_irrefl n
      refine ⟨?_, ?_, ?_, ?_, ?_⟩ <;>
        simp [Core.stepEvent, ha, hat, hst, hsu, hfa, hout, List.range_succ,
          hnn, Nat.lt_succ_self]
    · have hout : Core.eventOutcome p n = none := by
        rw [h n, if_neg hk]
      by_cases hkn : k < n
      · have hkn1 : k < n + 1 := Nat.lt_succ_of_lt hkn
        refine ⟨?_, ?_, ?_, ?_, ?_⟩ <;>
          simp [Core.stepEvent, ha, hat, hst, hsu, hfa, hout, List.range_succ,
            hk, hkn, hkn1] <;> omega
      · have hkn1 : ¬ k < n + 1 := by omega
        refine ⟨?_, ?_, ?_, ?_, ?_⟩ <;>
          simp [Core.stepEvent, ha, hat, hst, hsu, hfa, hout, List.range_succ,
            hk, hkn, hkn1]

/-- C5: a run of `N` events in which exactly one stage raises a Recoverable
StageError on event `k` leaves event `k` Failed, every other event Done,
runs to completion (all `N` attempted, no abort), and reports
succeeded = N - 1 and failed = 1. -/
theorem c5_recoverable_failure (p : Core.Pipeline) (N k : Nat) (hk : k < N)
    (h : ∀ i, Core.eventOutcome p i =
        if i = k then some Core.Severity.Recoverable else none) :
    (Core.runEvents p N).states = (List.range N).map
      (fun i => (i, if i = k then Core.EventState.Failed
                    else Core.EventState.Done)) ∧
    (Core.runEvents p N).stats.attempted = N ∧
    (Core.runEvents p N).stats.succeeded = N - 1 ∧
    (Core.runEvents p N).stats.failed = 1 ∧
    (Core.runEvents p N).aborted = false := by
  have hh := runEvents_single_recoverable p k h N
  exact ⟨hh.2.2.1, hh.2.1, by rw [hh.2.2.2.1, if_pos hk],
    by rw [hh.2.2.2.2, if_pos hk], hh.1⟩

/-- Witness for C5: one algorithm failing recoverably on event 1 of 3 gives
states Done, Failed, Done and statistics succeeded = 2, failed = 1. -/
theorem c5_recoverable_failure_witness :
    (Core.runEvents
        ⟨[], [],
         [⟨"alg", fun i => if i = 1 then some Core.Severity.Recoverable
                           else none⟩], []⟩ 3).states
      = (List.range 3).map
          (fun i => (i, if i = 1 then Core.EventState.Failed
                        else Core.EventState.Done)) ∧
    (Core.runEvents
        ⟨[], [],
         [⟨"alg", fun i => if i = 1 then some Core.Severity.Recoverable
                           else none⟩], []⟩ 3).stats.attempted = 3 ∧
    (Core.runEvents
        ⟨[], [],
         [⟨"alg", fun i => if i = 1 then some Core.Severity.Recoverable
                           else none⟩], []⟩ 3).stats.succeeded = 3 - 1 ∧
    (Core.runEvents
        ⟨[], [],
         [⟨"alg", fun i => if i = 1 then some Core.Severity.Recoverable
                           else none⟩], []⟩ 3).stats.failed = 1 ∧
    (Core.runEvents
        ⟨[], [],
         [⟨"alg", fun i => if i = 1 then some Core.Severity.Recoverable
                           else none⟩], []⟩ 3).aborted = false :=
  c5_recoverable_failure
    ⟨[], [],
     [⟨"alg", fun i => if i = 1 then some Core.Severity.Recoverable
                       else none⟩], []⟩ 3 1 (by decide)
    (by
      intro i
      by_cases hi : i = 1 <;>
        simp [Core.eventOutcome, Core.runStages, Core.stageList, hi])

/-- C4: whenever an event-count source is available, the determined total
is the minimum over the explicit count and all non-streaming reader counts
(it is one of them and a lower bound of all of them); in particular, with
no explicit count and one reader reporting `n` events and no Fatal error,
exactly `n` events are processed. -/
theorem c4_event_count_is_min (p : Core.Pipeline) (explicit : Option Nat)
    (c0 : Nat) (cs : List Nat)
    (h : Core.availableCounts p explicit = c0 :: cs) :
    Core.determineEventCount p explicit = .ok (cs.foldl min c0) ∧
    cs.foldl min c0 ∈ Core.availableCounts p explicit ∧
    (∀ c ∈ Core.availableCounts p explicit, cs.foldl min c0 ≤ c) ∧
    (∀ (q : Core.Pipeline) (n : Nat), Core.nonStreamingCounts q = [n] →
        (∀ j, Core.eventOutcome q j ≠ some Core.Severity.Fatal) →
        Core.determineEventCount q none = .ok n ∧
        (Core.run q none).final.stats.attempted = n) := by
  refine ⟨?_, ?_, ?_, ?_⟩
  · simp [Core.determineEventCount, h]
  · rw [h]
    exact foldl_min_mem cs c0
  · intro c hc
    rw [h] at hc
    exact foldl_min_le cs c0 c hc
  · intro q n hq hnf
    have hd : Core.determineEventCount q none = .ok n := by
      simp [Core.determineEventCount, Core.availableCounts, hq]
    refine ⟨hd, ?_⟩
    have hat := runEvents_attempted_of_no_fatal q hnf n
    simp [Core.run, hd, hat.2]

/-- Witness for C4: counts 9 and 7 determine 7; a lone reader reporting 2
events makes the run attempt exactly 2. -/
theorem c4_event_count_is_min_witness :
    Core.determineEventCount
      ⟨[], [⟨⟨"r1", fun _ => none⟩, some 9⟩, ⟨⟨"r2", fun _ => none⟩, some 7⟩],
       [], []⟩ none = .ok 7 ∧
    (Core.run ⟨[], [⟨⟨"r", fun _ => none⟩, some 2⟩], [], []⟩
        none).final.stats.attempted = 2 := by
  have h := c4_event_count_is_min
    ⟨[], [⟨⟨"r1", fun _ => none⟩, some 9⟩, ⟨⟨"r2", fun _ => none⟩, some 7⟩],
     [], []⟩ none 9 [7] rfl
  refine ⟨h.1, ?_⟩
  have h2 := h.2.2.2 ⟨[], [⟨⟨"r", fun _ => none⟩, some 2⟩], [], []⟩ 2 rfl
    (by
      intro j
      simp [Core.eventOutcome, Core.runStages, Core.stageList])
  exact h2.2

/-- When every stage of the list succeeds on event `i`, the recorded trace
is the whole list in order. -/
theorem runStages_trace_of_success (i : Nat) :
    ∀ sl : List (Core.Phase × Core.Stage), (Core.runStages sl i).2 = none →
      (Core.runStages sl i).1 = sl.map (fun s => (i, s.1, s.2.name)) := by
  intro sl
  induction sl with
  | nil => intro _; rfl
  | cons s rest ih =>
    intro h
    cases s with
    | mk ph st =>
      cases hout : st.out i with
      | some sev => simp [Core.runStages, hout] at h
      | none =>
        simp only [Core.runStages, hout] at h ⊢
        simp [ih h]

/-- Filtering for writer entries distributes over trace concatenation. -/
theorem writerSink_append (a b : List (Nat × Core.Phase × String)) :
    Core.writerSink (a ++ b) = Core.writerSink a ++ Core.writerSink b := by
  simp [Core.writerSink, List.filter_append]

/-- The writer entries of one fully successful event are one per registered
writer, all carrying that event's index. -/
theorem writerSink_stageList (p : Core.Pipeline) (i : Nat) :
    Core.writerSink ((Core.stageList p).map (fun s => (i, s.1, s.2.name)))
      = p.writers.map (fun _ => i) := by
  simp [Core.writerSink, Core.stageList, List.filter_append, List.filter_map,
    Function.comp_def,
    show (Core.Phase.Decorate == Core.Phase.Write) = false from rfl,
    show (Core.Phase.Read == Core.Phase.Write) = false from rfl,
    show (Core.Phase.Process == Core.Phase.Write) = false from rfl]

/-- Under W = 1 with one registered writer and no stage failures, the loop
never aborts and the sink receives outputs exactly in event-index order. -/
theorem writerSink_runEvents (p : Core.Pipeline) (w : Core.Stage)
    (hw : p.writers = [w]) (h : ∀ i, Core.eventOutcome p i = none) :
    ∀ n, (Core.runEvents p n).aborted = false ∧
      Core.writerSink (Core.runEvents p n).trace = List.range n := by
  intro n
  induction n with
  | zero => exact ⟨rfl, rfl⟩
  | succ n ih =>
    rw [runEvents_succ]
    rcases ih with ⟨ha, hs⟩
    have htr : Core.eventTrace p n
        = (Core.stageList p).map (fun s => (n, s.1, s.2.name)) :=
      runStages_trace_of_success n (Core.stageList p) (h n)
    refine ⟨?_, ?_⟩
    · simp [Core.stepEvent, ha, h n]
    · simp only [Core.stepEvent, ha, Bool.false_eq_true, if_false]
      rw [writerSink_append, hs, htr, writerSink_stageList, hw,
        List.range_succ]
      rfl

/-- C6: with worker count W = 1 events are processed strictly in increasing
index order on one thread, so for a run of `n` events with one registered
writer and no stage failures the external sink receives outputs in the
order `0, 1, ..., n-1`. -/
theorem c6_w1_sink_order (p : Core.Pipeline) (w : Core.Stage)
    (hw : p.writers = [w]) (h : ∀ i, Core.eventOutcome p i = none)
    (n : Nat) :
    Core.writerSink (Core.runEvents p n).trace = List.range n :=
  (writerSink_runEvents p w hw h n).2

/-- Witness for C6: a reader, an algorithm and a writer over 5 events put
outputs into the sink in the order 0, 1, 2, 3, 4. -/
theorem c6_w1_sink_order_witness :
    Core.writerSink (Core.runEvents
      ⟨[], [⟨⟨"r", fun _ => none⟩, some 5⟩], [⟨"a", fun _ => none⟩],
       [⟨"w", fun _ => none⟩]⟩ 5).trace = [0, 1, 2, 3, 4] :=
  (c6_w1_sink_order
      ⟨[], [⟨⟨"r", fun _ => none⟩, some 5⟩], [⟨"a", fun _ => none⟩],
       [⟨"w", fun _ => none⟩]⟩ ⟨"w", fun _ => none⟩ rfl
      (by
        intro i
        simp [Core.eventOutcome, Core.runStages, Core.stageList]) 5).trans
    (by rfl)

/-- The trace an event records is always an initial segment of the ordered
stage list (with the event's index attached). -/
theorem runStages_trace_prefix (i : Nat) :
    ∀ sl : List (Core.Phase × Core.Stage),
      ∃ m, (Core.runStages sl i).1
        = (sl.take m).map (fun s => (i, s.1, s.2.name)) := by
  intro sl
  induction sl with
  | nil => exact ⟨0, rfl⟩
  | cons s rest ih =>
    cases s with
    | mk ph st =>
      cases hout : st.out i with
      | some sev => exact ⟨1, by simp [Core.runStages, hout]⟩
      | none =>
        rcases ih with ⟨m, hm⟩
        exact ⟨m + 1, by simp [Core.runStages, hout, hm]⟩

/-- Every element of the non-decorator tail of the stage list carries a
phase other than Decorating. -/
theorem stageTail_not_decorate (p : Core.Pipeline) :
    ∀ s ∈ p.readers.map (fun r => (Core.Phase.Read, r.stage))
        ++ (p.algorithms.map (fun st => (Core.Phase.Process, st))
          ++ p.writers.map (fun st => (Core.Phase.Write, st))),
      s.1 ≠ Core.Phase.Decorate := by
  intro s hs
  rcases List.mem_append.mp hs with h1 | h2
  · rcases List.mem_map.mp h1 with ⟨r, _, hr⟩
    rw [← hr]
    exact fun hc => Core.Phase.noConfusion hc
  · rcases List.mem_append.mp h2 with h3 | h4
    · rcases List.mem_map.mp h3 with ⟨a, _, ha⟩
      rw [← ha]
      exact fun hc => Core.Phase.noConfusion hc
    · rcases List.mem_map.mp h4 with ⟨w, _, hw⟩
      rw [← hw]
      exact fun hc => Core.Phase.noConfusion hc

/-- C7: the steps an event executes are an initial segment of the ordered
stage list — decorators, then readers, then algorithms, then writers, each
class in registration order — and whenever any Reader/Algorithm/Writer step
executed, every registered decorator had already run, in registration
order, before all of them. -/
theorem c7_decorators_before_stages (p : Core.Pipeline) (i : Nat) :
    (∃ m, Core.eventTrace p i
        = ((Core.stageList p).take m).map (fun s => (i, s.1, s.2.name))) ∧
    ((∃ e ∈ Core.eventTrace p i, e.2.1 ≠ Core.Phase.Decorate) →
      Core.eventTrace p i
          = p.decorators.map (fun st => (i, Core.Phase.Decorate, st.name))
            ++ (Core.eventTrace p i).drop p.decorators.length ∧
      ∀ e ∈ (Core.eventTrace p i).drop p.decorators.length,
        e.2.1 ≠ Core.Phase.Decorate) := by
  obtain ⟨m, hm0⟩ := runStages_trace_prefix i (Core.stageList p)
  have hm : Core.eventTrace p i
      = ((Core.stageList p).take m).map (fun s => (i, s.1, s.2.name)) := hm0
  refine ⟨⟨m, hm⟩, ?_⟩
  intro hex
  obtain ⟨e, he, hne⟩ := hex
  set D := p.decorators.map (fun st => (Core.Phase.Decorate, st)) with hD
  set R := p.readers.map (fun r => (Core.Phase.Read, r.stage))
      ++ (p.algorithms.map (fun st => (Core.Phase.Process, st))
        ++ p.writers.map (fun st => (Core.Phase.Write, st))) with hR
  have hsl : Core.stageList p = D ++ R := by
    simp [Core.stageList, hD, hR, List.append_assoc]
  by_cases hml : m ≤ D.length
  · exfalso
    have htake : (Core.stageList p).take m = D.take m := by
      rw [hsl, List.take_append_eq_append_take,
        Nat.sub_eq_zero_of_le hml, List.take_zero, List.append_nil]
    rw [hm, htake] at he
    rcases List.mem_map.mp he with ⟨d, hd, hde⟩
    have hdD : d ∈ D := List.take_subset m D hd
    rcases List.mem_map.mp hdD with ⟨st, _, hst⟩
    rw [← hde, ← hst] at hne
    exact hne rfl
  · have hlt : D.length ≤ m := Nat.le_of_not_le hml
    have htake : (Core.stageList p).take m = D ++ R.take (m - D.length) := by
      rw [hsl, List.take_append_eq_append_take, List.take_of_length_le hlt]
    have htr : Core.eventTrace p i
        = D.map (fun s => (i, s.1, s.2.name))
          ++ (R.take (m - D.length)).map (fun s => (i, s.1, s.2.name)) := by
      rw [hm, htake, List.map_append]
    have hlen : (D.map (fun s => (i, s.1, s.2.name))).length
        = p.decorators.length := by
      simp [hD]
    have hdrop : (Core.eventTrace p i).drop p.decorators.length
        = (R.take (m - D.length)).map (fun s => (i, s.1, s.2.name)) := by
      rw [htr, ← hlen, List.drop_left]
    constructor
    · rw [hdrop, htr, hD]
      simp
    · intro e' he'
      rw [hdrop] at he'
      rcases List.mem_map.mp he' with ⟨s, hsR, hse⟩
      have hsR' : s ∈ R := List.take_subset _ R hsR
      have := stageTail_not_decorate p s (by rw [hR] at hsR'; exact hsR')
      rw [← hse]
      exact this

/-- Witness for C7: with two decorators and a reader, event 0's trace is
both decorators, in registration order, followed by the non-decorator
steps. -/
theorem c7_decorators_before_stages_witness :
    Core.eventTrace Core.sampleDecorated 0
      = Core.sampleDecorated.decorators.map
          (fun st => (0, Core.Phase.Decorate, st.name))
        ++ (Core.eventTrace Core.sampleDecorated 0).drop
            Core.sampleDecorated.decorators.length :=
  ((c7_decorators_before_stages Core.sampleDecorated 0).2
    ⟨(0, Core.Phase.Read, "r"), by decide, by decide⟩).1
